import Mathlib

/-!
Shallow embedding of the ChatterPay balance backend
(`app/services/balance_service.py`, `app/services/price_service.py`,
`app/utils/web3_utils.py`, `app/core/constants.py`).

Modelling conventions:
* Python `Decimal`/`float` arithmetic is modelled exactly over `ℚ`.
* The three module-level `TTLCache`s become explicit association lists
  `(key, insertionTime, value)` threaded through a state record `St`;
  `cacheGet` implements the TTL rule `now < insertedAt + ttl`.
* External I/O (web3 reads, the price oracle HTTP call, the fiat-rate HTTP
  call) and `Web3.to_checksum_address` (a pure library function whose code is
  outside this repository) are parameters collected in an `Env` record; each
  fallible call returns `Except String`.
* Every cache access and every upstream call is recorded as an `Event` in the
  state's trace, in the order the Python code performs them, so that claims
  about "no network call" / "cache not read" / ordering are statements about
  the trace.
* Python dict truthiness (`if cached_result:`) is modelled by `getTruthy`,
  which treats an empty stored dict as a miss.
-/

namespace ChatterPay

/-- One entry of `SUPPORTED_NETWORKS[net]["tokens"]`: contract address and
decimal precision (the `logo`/`rpc`/`chain_id`/`explorer` fields and the
native token's `symbol` field are never read by the embedded operations). -/
structure TokenInfo where
  address : String
  decimals : Nat
deriving Repr, DecidableEq

/-- `SUPPORTED_NETWORKS` from `app/core/constants.py`, as an insertion-ordered
association list network → token table. -/
def SUPPORTED_NETWORKS : List (String × List (String × TokenInfo)) :=
  [("polygon",
     [("weth",   ⟨"0x7ceB23fD6bC0adD59E62ac25578270cFf1b9f619", 18⟩),
      ("usdc",   ⟨"0x3c499c542cEF5E3811e1192ce70d8cC03d5c3359", 6⟩),
      ("native", ⟨"0x0000000000000000000000000000000000000000", 18⟩)]),
   ("arbitrum",
     [("weth",   ⟨"0x82aF49447D8a07e3bd95BD0d56f35241523fBab1", 18⟩),
      ("usdc",   ⟨"0xaf88d065e77c8cC2239327C5EDb3A432268e5831", 6⟩),
      ("usdt",   ⟨"0xFd086bC7CD5C481DCC9C85ebE478A1C0b69FCbb9", 6⟩),
      ("native", ⟨"0x0000000000000000000000000000000000000000", 18⟩)]),
   ("scroll",
     [("weth",   ⟨"0x5300000000000000000000000000000000000004", 18⟩),
      ("usdc",   ⟨"0x06eFdBFf2a14a7c8E15944D1F4A48F9F95F663A4", 6⟩),
      ("usdt",   ⟨"0xf55BEC9cafDbE8730f096Aa55dad6D22d44099Df", 6⟩),
      ("native", ⟨"0x0000000000000000000000000000000000000000", 18⟩)])]

/-- The token table of a network (`SUPPORTED_NETWORKS[network]['tokens']`);
`none` models the `KeyError` raised for an unregistered network key. -/
def tokensOf (network : String) : Option (List (String × TokenInfo)) :=
  (SUPPORTED_NETWORKS.find? (fun e => e.1 == network)).map (·.2)

/-- Token info lookup `SUPPORTED_NETWORKS[network]['tokens'][token]`. -/
def lookupToken (network token : String) : Option TokenInfo :=
  (tokensOf network).bind fun toks =>
    (toks.find? (fun e => e.1 == token)).map (·.2)

def zeroAddr : String := "0x0000000000000000000000000000000000000000"

/-- A per-network balance result: insertion-ordered dict
token symbol → `[amount, price]` (the Python value is a 2-element list). -/
abbrev BalRes := List (String × ℚ × ℚ)

/-- A price dict token symbol → USD unit price. -/
abbrev PriceMap := List (String × ℚ)

/-- The decoded `data['coins']` object of the price-oracle response: keys are
`network:contractAddressLowercase` strings; a value is a coin object whose
`price` field may be absent (`none`). -/
abbrev CoinsData := List (String × Option ℚ)

/-- Observable operations, recorded in program order. -/
inductive Event where
  | balCacheGet (key : String)
  | balCachePut (key : String)
  | priceCacheGet (key : String)
  | priceCachePut (key : String)
  | fiatCacheGet
  | fiatCachePut
  | chainRead (network token addr : String)
  | priceFetch (network : String) (contracts : List String)
  | fiatFetch
deriving Repr, DecidableEq

def Event.isChainRead : Event → Bool
  | .chainRead _ _ _ => true
  | _ => false

/-- Upstream (network I/O) events: web3 reads and the two HTTP fetches. -/
def Event.isUpstream : Event → Bool
  | .chainRead _ _ _ => true
  | .priceFetch _ _ => true
  | .fiatFetch => true
  | _ => false

/-- External collaborators and library code. `chainRead network token addr`
abstracts both web3 read forms of `get_balance`'s token loop
(`contract.functions.balanceOf(addr).call()` for an ERC20 token,
`w3.eth.get_balance(addr)` for `native`), returning the raw on-chain integer.
`checksum` abstracts `Web3.to_checksum_address`. -/
structure Env where
  checksum : String → String
  chainRead : String → String → String → Except String Nat
  priceOracle : String → List String → Except String CoinsData
  fiatOracle : Unit → Except String ℚ

/-- Mutable process state: the three `TTLCache`s (association lists of
`(key, insertedAt, value)`), the clock, and the event trace. -/
structure St where
  balanceCache : List (String × Nat × BalRes)
  priceCache : List (String × Nat × PriceMap)
  fiatCache : List (String × Nat × ℚ)
  now : Nat
  events : List Event
deriving Repr, DecidableEq

def St.empty : St := ⟨[], [], [], 0, []⟩

/-- `TTLCache.get`: present and not expired (valid while `now < t + ttl`). -/
def cacheGet {α : Type} (c : List (String × Nat × α)) (now ttl : Nat) (k : String) :
    Option α :=
  match c.find? (fun e => e.1 == k) with
  | some (_, t, v) => if now < t + ttl then some v else none
  | none => none

/-- `cache[key] = value`: insert/overwrite, stamped with the current time. -/
def cachePut {α : Type} (c : List (String × Nat × α)) (now : Nat) (k : String) (v : α) :
    List (String × Nat × α) :=
  (k, now, v) :: c.filter (fun e => e.1 != k)

/-- `cache.get(key)` followed by Python truthiness (`if cached_result:`):
an empty stored dict counts as a miss. -/
def getTruthy {β : Type} (c : List (String × Nat × List β)) (now ttl : Nat)
    (k : String) : Option (List β) :=
  match cacheGet c now ttl k with
  | some v => if v.isEmpty then none else some v
  | none => none

/-- Hex-digit test used by address validation. -/
def isHexDig (c : Char) : Bool :=
  c.isDigit || ('a' ≤ c && c ≤ 'f') || ('A' ≤ c && c ≤ 'F')

/-- `Web3.is_address`: `0x` followed by 40 hex digits (case-insensitive).
The real library additionally verifies the EIP-55 checksum on mixed-case
input; the claims below only ever feed it all-lowercase, all-uppercase or
correctly checksummed strings, on which the two definitions agree. -/
def is_address (s : String) : Bool :=
  match s.data with
  | '0' :: 'x' :: rest => rest.length == 40 && rest.all isHexDig
  | _ => false

/-- ASCII lower-casing of one character (`str.lower()` on the hex/identifier
strings this code lowercases). -/
def lowerChar (c : Char) : Char :=
  if 'A' ≤ c && c ≤ 'Z' then Char.ofNat (c.toNat + 32) else c

/-- `str.lower()`. -/
def lowerStr (s : String) : String := ⟨s.data.map lowerChar⟩

/-- Lexicographic code-point comparison on character lists (Python `str` ≤). -/
def charsLe : List Char → List Char → Bool
  | [], _ => true
  | _ :: _, [] => false
  | a :: as, b :: bs => if a = b then charsLe as bs else decide (a < b)

/-- Python string comparison `a <= b` (lexicographic by code point). -/
def strLe (a b : String) : Bool := charsLe a.data b.data

/-- Python `sorted(tokens)`. -/
def sortedStrings (l : List String) : List String :=
  l.insertionSort (fun a b => strLe a b = true)

/-- `cache_key = f"{network}:{','.join(sorted(tokens))}"` (price cache). -/
def price_cache_key (network : String) (tokens : List String) : String :=
  network ++ ":" ++ String.intercalate "," (sortedStrings tokens)

/-- `cache_key = f"{network}:{addr}"` (balance cache) — note: the raw `addr`
argument, not the checksummed address. -/
def balance_cache_key (network addr : String) : String :=
  network ++ ":" ++ addr

/-- Registry address lookup for a list of token symbols; `none` models the
`KeyError` raised by the first unregistered token of the comprehension. -/
def lookupAddrs (network : String) : List String → Option (List String)
  | [] => some []
  | t :: rest =>
    match lookupToken network t with
    | none => none
    | some info => (lookupAddrs network rest).map (info.address :: ·)

/-- The contract-address list of the batched oracle request: the registry
address of every non-`native` requested token, then the zero address for the
native coin; `.error` models the `KeyError` on an unregistered token. -/
def contractAddresses (network : String) (tokens : List String) :
    Except String (List String) :=
  match lookupAddrs network (tokens.filter (fun t => t != "native")) with
  | some l => .ok (l ++ [zeroAddr])
  | none => .error "KeyError"

/-- The contract list actually sent to the oracle by a (miss-path) `get_prices`
call; `[]` when the request construction raises before the fetch. -/
def requestedContracts (network : String) (tokens : List String) : List String :=
  match contractAddresses network tokens with
  | .ok l => l
  | .error _ => []

/-- The key under which a token's quote is looked up in `data['coins']`:
`f"{network}:{contract_address}"` with the address lowercased. -/
def coinKey (network addr : String) : String := network ++ ":" ++ lowerStr addr

/-- `data['coins'].get(key, {}).get('price', 0)` for one requested token:
defaults to 0 both when the key is absent and when the coin object has no
`price` field; `.error` models the `KeyError` on an unregistered token. -/
def priceOf (network : String) (coins : CoinsData) (token : String) :
    Except String ℚ :=
  match (if token == "native" then some zeroAddr
         else (lookupToken network token).map (·.address)) with
  | none => .error "KeyError"
  | some a =>
    .ok (match coins.find? (fun q => q.1 == coinKey network a) with
         | some (_, some p) => p
         | some (_, none) => 0
         | none => 0)

/-- The `data['coins']` key under which a requested token's quote is looked
up: the zero address for `native`, the registry contract address otherwise;
`none` when the token is not in the registry. -/
def tokenCoinKey (network token : String) : Option String :=
  if token == "native" then some (coinKey network zeroAddr)
  else (lookupToken network token).map (fun i => coinKey network i.address)

/-- Whether the oracle response carries a quote for a coin key: the key must
be present and its coin object must have a `price` field. -/
def hasQuote (coins : CoinsData) (ck : String) : Bool :=
  match coins.find? (fun q => q.1 == ck) with
  | some (_, some _) => true
  | _ => false

/-- Python dict assignment `d[k] = v`: overwrite in place, else append. -/
def dictInsert {α : Type} (d : List (String × α)) (k : String) (v : α) :
    List (String × α) :=
  if d.any (fun e => e.1 == k) then
    d.map (fun e => if e.1 == k then (k, v) else e)
  else d ++ [(k, v)]

/-- `get_prices` (`app/services/price_service.py`): price-batch cache keyed by
`(network, sorted tokens joined)`, TTL 600 s; on a miss, one batched oracle
request, per-token default-0 extraction, store, return. -/
def get_prices (env : Env) (network : String) (tokens : List String) (st : St) :
    Except String PriceMap × St :=
  let key := price_cache_key network tokens
  let st := { st with events := st.events ++ [.priceCacheGet key] }
  match getTruthy st.priceCache st.now 600 key with
  | some cached => (.ok cached, st)
  | none =>
    match contractAddresses network tokens with
    | .error e => (.error e, st)
    | .ok addrs =>
      let st := { st with
        events := st.events ++ [.priceFetch network (addrs.map lowerStr)] }
      match env.priceOracle network addrs with
      | .error e => (.error e, st)
      | .ok coins =>
        match tokens.foldlM
            (fun d t => (priceOf network coins t).map (fun p => dictInsert d t p))
            ([] : PriceMap) with
        | .error e => (.error e, st)
        | .ok prices =>
          (.ok prices,
           { st with priceCache := cachePut st.priceCache st.now key prices,
                     events := st.events ++ [.priceCachePut key] })

/-- `get_fiat_prices`: singleton fiat cache (`'fiat_prices'`, TTL 3600 s);
on a miss one HTTP fetch of `data['totalAsk']`. The cached dict
`{'USD_ARS': rate}` is modelled by its single rate value (a one-key dict is
always truthy). -/
def get_fiat_prices (env : Env) (st : St) : Except String ℚ × St :=
  let st := { st with events := st.events ++ [.fiatCacheGet] }
  match cacheGet st.fiatCache st.now 3600 "fiat_prices" with
  | some rate => (.ok rate, st)
  | none =>
    let st := { st with events := st.events ++ [.fiatFetch] }
    match env.fiatOracle () with
    | .error e => (.error e, st)
    | .ok rate =>
      (.ok rate,
       { st with fiatCache := cachePut st.fiatCache st.now "fiat_prices" rate,
                 events := st.events ++ [.fiatCachePut] })

/-- The token loop of `get_balance`: one web3 read per token in table order,
`amount = Decimal(raw) / Decimal(10**decimals)`; the first failure aborts the
loop with the underlying error. -/
def readBalances (env : Env) (network addr : String)
    (toks : List (String × TokenInfo)) (st : St) :
    Except String (List (String × ℚ)) × St :=
  match toks with
  | [] => (.ok [], st)
  | (t, info) :: rest =>
    let st := { st with events := st.events ++ [.chainRead network t addr] }
    match env.chainRead network t addr with
    | .error e => (.error e, st)
    | .ok raw =>
      match readBalances env network addr rest st with
      | (.ok tail, st') =>
        (.ok ((t, (raw : ℚ) / ((10 : ℚ) ^ info.decimals)) :: tail), st')
      | (.error e, st') => (.error e, st')

/-- `res[token][1] = Decimal(str(price))` for one `(token, price)` pair of the
returned price dict: `KeyError` if the token is not a key of `res`. -/
def setPrice (res : BalRes) (t : String) (p : ℚ) : Except String BalRes :=
  if res.any (fun e => e.1 == t) then
    .ok (res.map (fun e => if e.1 == t then (t, e.2.1, p) else e))
  else .error "KeyError"

/-- Build `res` ( `{token: [amount, 0] ...}` updated by the prices loop ). -/
def mergePrices (amounts : List (String × ℚ)) (prices : PriceMap) :
    Except String BalRes :=
  prices.foldlM (fun r tp => setPrice r tp.1 tp.2)
    (amounts.map (fun e => (e.1, e.2, (0 : ℚ))))

/-- `get_balance` (`app/services/balance_service.py`). Order of operations as
in the source: balance-cache lookup on the RAW address key, then the
network-registry check (`get_web3` raises `KeyError` for an unknown network),
then `w3.is_address`, then checksumming, then the token read loop, then
`get_prices`, then combine, store, return; any failure propagates without a
cache store. -/
def get_balance (env : Env) (addr network : String) (st : St) :
    Except String BalRes × St :=
  let key := balance_cache_key network addr
  let st := { st with events := st.events ++ [.balCacheGet key] }
  match getTruthy st.balanceCache st.now 60 key with
  | some cached => (.ok cached, st)
  | none =>
    match tokensOf network with
    | none => (.error ("Unsupported network: " ++ network), st)
    | some toks =>
      if !(is_address addr) then (.error "Invalid address", st)
      else
        match readBalances env network (env.checksum addr) toks st with
        | (.error e, st') => (.error e, st')
        | (.ok amounts, st') =>
          match get_prices env network (toks.map (·.1)) st' with
          | (.error e, st'') => (.error e, st'')
          | (.ok prices, st'') =>
            match mergePrices amounts prices with
            | .error e => (.error e, st'')
            | .ok result =>
              (.ok result,
               { st'' with
                   balanceCache := cachePut st''.balanceCache st''.now key result,
                   events := st''.events ++ [.balCachePut key] })

/-- Decidable equality for `Except`, so that concrete runs can be settled by
`decide`. -/
def exceptDecEq {ε α : Type} [DecidableEq ε] [DecidableEq α] :
    DecidableEq (Except ε α)
  | .error e, .error f =>
    if h : e = f then .isTrue (by rw [h]) else .isFalse (by simp [h])
  | .error _, .ok _ => .isFalse (by simp)
  | .ok _, .error _ => .isFalse (by simp)
  | .ok a, .ok b =>
    if h : a = b then .isTrue (by rw [h]) else .isFalse (by simp [h])

instance {ε α : Type} [DecidableEq ε] [DecidableEq α] : DecidableEq (Except ε α) :=
  exceptDecEq

/-- The aggregate returned by `get_balance_all_networks`; a network whose
`get_balance` raised is recorded as `.error msg` (the `{"error": str(e)}`
marker). -/
structure AggregateResult where
  address : String
  balances : List (String × Except String BalRes)
  totalValueUSD : ℚ
  totalValueARS : ℚ
deriving Repr

/-- `sum(Decimal(str(balance[0])) * Decimal(str(balance[1])) for balance in
network_balance.values())`. -/
def entryValue (r : BalRes) : ℚ := (r.map (fun e => e.2.1 * e.2.2)).sum

/-- Spec-side definition (§4.4 step 3 / §8): the total USD value of an
all-networks balances mapping is the sum, over exactly the networks whose
fetch succeeded, of Σ (amount × unitPriceUSD) over that network's tokens;
failed networks contribute nothing. Stated from the spec's words, to be
compared with what the code computes. -/
def specTotalUSD (bals : List (String × Except String BalRes)) : ℚ :=
  (bals.map fun e =>
    match e.2 with
    | .ok r => entryValue r
    | .error _ => 0).sum

/-- The `for network in SUPPORTED_NETWORKS.keys():` loop: sequentially invoke
`get_balance`, record the result or the error marker, and accumulate the USD
total over the successful networks only. -/
def allNetworksLoop (env : Env) (caddr : String) (networks : List String)
    (st : St) : List (String × Except String BalRes) × ℚ × St :=
  match networks with
  | [] => ([], 0, st)
  | n :: rest =>
    match get_balance env caddr n st with
    | (.ok r, st') =>
      let (tail, total, st'') := allNetworksLoop env caddr rest st'
      ((n, .ok r) :: tail, entryValue r + total, st'')
    | (.error e, st') =>
      let (tail, total, st'') := allNetworksLoop env caddr rest st'
      ((n, .error e) :: tail, total, st'')

/-- `get_balance_all_networks`: validate once, checksum once, loop over every
registered network with per-network error capture, then the fiat-rate step
(whose failure propagates), then assemble the aggregate. -/
def get_balance_all_networks (env : Env) (addr : String) (st : St) :
    Except String AggregateResult × St :=
  if !(is_address addr) then (.error "Invalid address", st)
  else
    let caddr := env.checksum addr
    let (results, totalUSD, st') :=
      allNetworksLoop env caddr (SUPPORTED_NETWORKS.map (·.1)) st
    match get_fiat_prices env st' with
    | (.error e, st'') => (.error e, st'')
    | (.ok rate, st'') =>
      (.ok { address := caddr, balances := results,
             totalValueUSD := totalUSD, totalValueARS := totalUSD * rate },
       st'')

/-- The value `priceOf` returns when it succeeds. -/
def priceOfD (network : String) (coins : CoinsData) (t : String) : ℚ :=
  match priceOf network coins t with
  | .ok p => p
  | .error _ => 0

/-- The §8 scenario address, in EIP-55 checksummed form. -/
def cAddrW : String := "0xd8dA6BF26964aF9D7eEd9e03E53415D37aA96045"

/-- The same address, all lowercase. -/
def aLowW : String := "0xd8da6bf26964af9d7eed9e03e53415d37aa96045"

/-- A benign test environment: checksumming yields the canonical form of the
scenario address, every chain read returns raw 0, the price oracle returns an
empty quote set, and the fiat rate is 1000. -/
def envOk : Env := {
  checksum := fun _ => cAddrW
  chainRead := fun _ _ _ => .ok 0
  priceOracle := fun _ _ => .ok []
  fiatOracle := fun _ => .ok 1000 }

/-- Like `envOk` but the arbitrum RPC endpoint is down. -/
def envArbDown : Env :=
  { envOk with chainRead := fun n _ _ =>
      if n == "arbitrum" then .error "rpc down" else .ok 0 }

/-- Like `envOk` but every RPC endpoint is down. -/
def envRpcDown : Env :=
  { envOk with chainRead := fun _ _ _ => .error "rpc down" }

/-- Like `envOk` but the fiat-rate endpoint is down. -/
def envFiatDown : Env :=
  { envOk with fiatOracle := fun _ => .error "fiat api down" }

/-- Like `envOk` but the oracle quotes polygon weth at 3 and the native coin
at 2, and returns no quote for usdc. -/
def envNQ : Env :=
  { envOk with priceOracle := fun n _ =>
      Except.ok [(coinKey n "0x7ceB23fD6bC0adD59E62ac25578270cFf1b9f619", some 3),
                 (coinKey n zeroAddr, some 2)] }

namespace Proofs

/-- `charsLe` is total. -/
theorem charsLe_total : ∀ as bs : List Char, charsLe as bs = true ∨ charsLe bs as = true := by
  intro as
  induction as with
  | nil => intro bs; left; rfl
  | cons a as ih =>
    intro bs
    cases bs with
    | nil => right; rfl
    | cons b bs =>
      by_cases hab : a = b
      · subst hab
        rcases ih bs with h | h
        · left; simpa [charsLe] using h
        · right; simpa [charsLe] using h
      · rcases lt_trichotomy a b with h | h | h
        · left; simp [charsLe, hab, h]
        · exact absurd h hab
        · right; simp [charsLe, Ne.symm hab, h]

/-- `charsLe` is transitive. -/
theorem charsLe_trans : ∀ as bs cs : List Char,
    charsLe as bs = true → charsLe bs cs = true → charsLe as cs = true := by
  intro as
  induction as with
  | nil => intro bs cs _ _; rfl
  | cons a as ih =>
    intro bs cs h1 h2
    cases bs with
    | nil => simp [charsLe] at h1
    | cons b bs =>
      cases cs with
      | nil => simp [charsLe] at h2
      | cons c cs =>
        by_cases hab : a = b <;> by_cases hbc : b = c
        · subst hab; subst hbc
          simp only [charsLe, if_pos rfl] at h1 h2 ⊢
          exact ih bs cs h1 h2
        · subst hab
          simp only [charsLe, if_pos rfl] at h1
          simpa [charsLe, hbc] using h2
        · subst hbc
          simp only [charsLe, if_pos rfl] at h2
          simpa [charsLe, hab] using h1
        · simp only [charsLe, if_neg hab] at h1
          simp only [charsLe, if_neg hbc] at h2
          have hac : a < c := lt_trans (of_decide_eq_true h1) (of_decide_eq_true h2)
          simp [charsLe, ne_of_lt hac, hac]

/-- `charsLe` is antisymmetric. -/
theorem charsLe_antisymm : ∀ as bs : List Char,
    charsLe as bs = true → charsLe bs as = true → as = bs := by
  intro as
  induction as with
  | nil =>
    intro bs h1 h2
    cases bs with
    | nil => rfl
    | cons b bs => simp [charsLe] at h2
  | cons a as ih =>
    intro bs h1 h2
    cases bs with
    | nil => simp [charsLe] at h1
    | cons b bs =>
      by_cases hab : a = b
      · subst hab
        simp only [charsLe, if_pos rfl] at h1 h2
        exact congrArg (a :: ·) (ih bs h1 h2)
      · simp only [charsLe, if_neg hab] at h1
        simp only [charsLe, if_neg (Ne.symm hab)] at h2
        exact absurd (lt_trans (of_decide_eq_true h1) (of_decide_eq_true h2))
          (lt_irrefl a)

instance : IsTotal String (fun a b => strLe a b = true) :=
  ⟨fun a b => charsLe_total a.data b.data⟩

instance : IsTrans String (fun a b => strLe a b = true) :=
  ⟨fun a b c => charsLe_trans a.data b.data c.data⟩

instance : IsAntisymm String (fun a b => strLe a b = true) :=
  ⟨fun a b h1 h2 => String.ext (charsLe_antisymm a.data b.data h1 h2)⟩

/-- Sorting is invariant under permutation of the input. -/
theorem sortedStrings_eq_of_perm {t1 t2 : List String} (h : t1.Perm t2) :
    sortedStrings t1 = sortedStrings t2 := by
  exact List.eq_of_perm_of_sorted (r := fun a b => strLe a b = true)
    (((List.perm_insertionSort _ t1).trans h).trans
      (List.perm_insertionSort _ t2).symm)
    (List.sorted_insertionSort _ t1)
    (List.sorted_insertionSort _ t2)

/-- The token read loop touches no cache and not the clock. -/
theorem readBalances_state (env : Env) (network addr : String)
    (toks : List (String × TokenInfo)) : ∀ st : St,
    (readBalances env network addr toks st).2.balanceCache = st.balanceCache ∧
    (readBalances env network addr toks st).2.priceCache = st.priceCache ∧
    (readBalances env network addr toks st).2.fiatCache = st.fiatCache ∧
    (readBalances env network addr toks st).2.now = st.now := by
  induction toks with
  | nil => intro st; simp [readBalances]
  | cons p rest ih =>
    intro st
    rw [readBalances]
    rcases hcr : env.chainRead network p.1 addr with e | raw
    · simp
    · have h := ih { st with events := st.events ++ [.chainRead network p.1 addr] }
      rcases hrb : readBalances env network addr rest
          { st with events := st.events ++ [.chainRead network p.1 addr] } with ⟨res, st'⟩
      rw [hrb] at h
      cases res <;> simpa using h

/-- On success the token loop appends exactly one chain-read event per token,
in table order, and returns one amount per token with the same keys. -/
theorem readBalances_ok (env : Env) (network addr : String)
    (toks : List (String × TokenInfo)) : ∀ st st' amounts,
    readBalances env network addr toks st = (.ok amounts, st') →
    st'.events = st.events ++ toks.map (fun p => Event.chainRead network p.1 addr) ∧
    amounts.map Prod.fst = toks.map Prod.fst := by
  induction toks with
  | nil =>
    intro st st' amounts h
    rw [readBalances] at h
    injection h with h1 h2
    injection h1 with h1
    subst h1 h2
    simp
  | cons p rest ih =>
    intro st st' amounts h
    rw [readBalances] at h
    rcases hcr : env.chainRead network p.1 addr with e | raw <;> rw [hcr] at h
    · simp at h
    · rcases hrb : readBalances env network addr rest
          { st with events := st.events ++ [.chainRead network p.1 addr] } with ⟨res, st''⟩
      rw [hrb] at h
      cases res with
      | error e => simp at h
      | ok tail =>
        simp only at h
        injection h with h1 h2
        injection h1 with h1
        subst h2
        have := ih _ _ _ hrb
        simp only [List.map_cons] at this ⊢
        refine ⟨?_, ?_⟩
        · rw [this.1]; simp
        · rw [← h1]; simp [this.2]

/-- `get_prices` touches neither the balance cache, nor the fiat cache, nor
the clock. -/
theorem get_prices_state (env : Env) (network : String) (tokens : List String)
    (st : St) :
    (get_prices env network tokens st).2.balanceCache = st.balanceCache ∧
    (get_prices env network tokens st).2.fiatCache = st.fiatCache ∧
    (get_prices env network tokens st).2.now = st.now := by
  simp only [get_prices]
  split
  · simp
  · split
    · simp
    · split
      · simp
      · split
        · simp
        · simp

/-- `get_prices` records no chain-read event. -/
theorem get_prices_events (env : Env) (network : String) (tokens : List String)
    (st : St) :
    ∃ evs, (get_prices env network tokens st).2.events = st.events ++ evs ∧
      ∀ e ∈ evs, e.isChainRead = false := by
  simp only [get_prices]
  split
  · exact ⟨[.priceCacheGet (price_cache_key network tokens)], by simp,
      by simp [Event.isChainRead]⟩
  · split
    · exact ⟨[.priceCacheGet (price_cache_key network tokens)], by simp,
        by simp [Event.isChainRead]⟩
    next addrs _ =>
      split
      · exact ⟨[.priceCacheGet (price_cache_key network tokens),
          .priceFetch network (addrs.map lowerStr)], by simp,
          by simp [Event.isChainRead]⟩
      · split
        · exact ⟨[.priceCacheGet (price_cache_key network tokens),
            .priceFetch network (addrs.map lowerStr)], by simp,
            by simp [Event.isChainRead]⟩
        · exact ⟨[.priceCacheGet (price_cache_key network tokens),
            .priceFetch network (addrs.map lowerStr),
            .priceCachePut (price_cache_key network tokens)], by simp,
            by simp [Event.isChainRead]⟩

/-- `get_fiat_prices` touches neither the balance cache, nor the price cache,
nor the clock. -/
theorem get_fiat_prices_state (env : Env) (st : St) :
    (get_fiat_prices env st).2.balanceCache = st.balanceCache ∧
    (get_fiat_prices env st).2.priceCache = st.priceCache ∧
    (get_fiat_prices env st).2.now = st.now := by
  simp only [get_fiat_prices]
  split
  · simp
  · split
    · simp
    · simp

/-- After a successful fiat step the returned rate is the (fresh) cached one. -/
theorem get_fiat_prices_ok (env : Env) (st st' : St) (rate : ℚ)
    (h : get_fiat_prices env st = (.ok rate, st')) :
    cacheGet st'.fiatCache st'.now 3600 "fiat_prices" = some rate := by
  rw [get_fiat_prices] at h
  rcases h1 : cacheGet st.fiatCache st.now 3600 "fiat_prices" with _ | r
  · rw [h1] at h
    simp only at h
    rcases h2 : env.fiatOracle () with e | r2 <;> rw [h2] at h
    · simp at h
    · simp only at h
      injection h with ha hb
      injection ha with ha
      subst ha hb
      simp [cacheGet, cachePut]
  · rw [h1] at h
    simp only at h
    injection h with ha hb
    injection ha with ha
    subst ha hb
    simpa [cacheGet] using h1

/-- The token read loop only ever appends events. -/
theorem readBalances_events (env : Env) (network addr : String)
    (toks : List (String × TokenInfo)) : ∀ st : St,
    ∃ evs, (readBalances env network addr toks st).2.events = st.events ++ evs := by
  induction toks with
  | nil => intro st; exact ⟨[], by simp [readBalances]⟩
  | cons p rest ih =>
    intro st
    rw [readBalances]
    rcases hcr : env.chainRead network p.1 addr with e | raw
    · exact ⟨[.chainRead network p.1 addr], by simp⟩
    · have h := ih { st with events := st.events ++ [.chainRead network p.1 addr] }
      rcases hrb : readBalances env network addr rest
          { st with events := st.events ++ [.chainRead network p.1 addr] } with ⟨res, st'⟩
      rw [hrb] at h
      obtain ⟨evs, hevs⟩ := h
      cases res <;>
        exact ⟨Event.chainRead network p.1 addr :: evs, by simpa using hevs⟩

/-- `res[token][1] = price` keeps the key list of `res` unchanged. -/
theorem setPrice_keys (res res' : BalRes) (t : String) (p : ℚ)
    (h : setPrice res t p = .ok res') : res'.map Prod.fst = res.map Prod.fst := by
  rw [setPrice] at h
  split at h
  · injection h with h1
    subst h1
    rw [List.map_map]
    apply List.map_congr_left
    intro e _
    by_cases he : e.1 = t
    · simp [he]
    · simp [he]
  · exact absurd h (by simp)

/-- The prices loop keeps the key list of `res` unchanged. -/
theorem mergePricesAux_keys : ∀ (prices : PriceMap) (init r : BalRes),
    prices.foldlM (fun r tp => setPrice r tp.1 tp.2) init = .ok r →
    r.map Prod.fst = init.map Prod.fst := by
  intro prices
  induction prices with
  | nil =>
    intro init r h
    simp only [List.foldlM_nil] at h
    injection h with h1
    subst h1; rfl
  | cons tp rest ih =>
    intro init r h
    simp only [List.foldlM_cons] at h
    rcases hs : setPrice init tp.1 tp.2 with e | r1 <;> rw [hs] at h
    · simp [Bind.bind, Except.bind] at h
    · simp only [Bind.bind, Except.bind] at h
      exact (ih r1 r h).trans (setPrice_keys init r1 tp.1 tp.2 hs)

/-- `mergePrices` preserves the token keys of the amounts dict. -/
theorem mergePrices_keys (amounts : List (String × ℚ)) (prices : PriceMap)
    (r : BalRes) (h : mergePrices amounts prices = .ok r) :
    r.map Prod.fst = amounts.map Prod.fst := by
  have := mergePricesAux_keys prices _ r h
  rw [this, List.map_map]
  rfl

/-- Every registered network has a non-empty token table. -/
theorem tokensOf_ne_nil (network : String) (toks : List (String × TokenInfo))
    (h : tokensOf network = some toks) : toks ≠ [] := by
  rw [tokensOf] at h
  rcases hf : SUPPORTED_NETWORKS.find? (fun e => e.1 == network) with _ | p
  · rw [hf] at h; simp at h
  · rw [hf] at h
    simp only [Option.map] at h
    injection h with h1
    have hmem := List.mem_of_find?_eq_some hf
    have hall : ∀ x ∈ SUPPORTED_NETWORKS, x.2 ≠ [] := by decide
    rw [← h1]
    exact hall p hmem

/-- `get_balance` never touches the fiat cache or the clock. -/
theorem get_balance_state (env : Env) (addr network : String) (st : St) :
    (get_balance env addr network st).2.fiatCache = st.fiatCache ∧
    (get_balance env addr network st).2.now = st.now := by
  simp only [get_balance]
  split
  · simp
  · split
    · simp
    next toks _ =>
      split
      · simp
      · split
        next e st' heq =>
          have h := readBalances_state env network (env.checksum addr) toks
            { st with events := st.events ++ [.balCacheGet (balance_cache_key network addr)] }
          rw [heq] at h
          simp only at h
          exact ⟨h.2.2.1, h.2.2.2⟩
        next amounts st' heq =>
          have h := readBalances_state env network (env.checksum addr) toks
            { st with events := st.events ++ [.balCacheGet (balance_cache_key network addr)] }
          rw [heq] at h
          simp only at h
          split
          next e st'' heq2 =>
            have h2 := get_prices_state env network (toks.map (·.1)) st'
            rw [heq2] at h2
            exact ⟨h2.2.1.trans h.2.2.1, h2.2.2.trans h.2.2.2⟩
          next prices st'' heq2 =>
            have h2 := get_prices_state env network (toks.map (·.1)) st'
            rw [heq2] at h2
            split
            · exact ⟨h2.2.1.trans h.2.2.1, h2.2.2.trans h.2.2.2⟩
            · exact ⟨h2.2.1.trans h.2.2.1, h2.2.2.trans h.2.2.2⟩

/-- Either `get_balance` leaves the balance cache untouched, or it returned
successfully (only the final success branch stores anything). -/
theorem get_balance_balCache_or (env : Env) (addr network : String) (st : St) :
    (get_balance env addr network st).2.balanceCache = st.balanceCache ∨
    (get_balance env addr network st).1.isOk = true := by
  simp only [get_balance]
  split
  · right; rfl
  · split
    · left; rfl
    next toks _ =>
      split
      · left; rfl
      · split
        next e st' heq =>
          have h := readBalances_state env network (env.checksum addr) toks
            { st with events := st.events ++ [.balCacheGet (balance_cache_key network addr)] }
          rw [heq] at h
          left
          exact h.1
        next amounts st' heq =>
          have h := readBalances_state env network (env.checksum addr) toks
            { st with events := st.events ++ [.balCacheGet (balance_cache_key network addr)] }
          rw [heq] at h
          split
          next e st'' heq2 =>
            have h2 := get_prices_state env network (toks.map (·.1)) st'
            rw [heq2] at h2
            left
            exact h2.1.trans h.1
          next prices st'' heq2 =>
            have h2 := get_prices_state env network (toks.map (·.1)) st'
            rw [heq2] at h2
            split
            · left
              exact h2.1.trans h.1
            · right; rfl

/-- On any failure, `get_balance` leaves the balance cache exactly as it was:
no partial per-token result is ever stored. -/
theorem get_balance_err_balCache (env : Env) (addr network : String) (st : St)
    (e : String) (herr : (get_balance env addr network st).1 = .error e) :
    (get_balance env addr network st).2.balanceCache = st.balanceCache := by
  rcases get_balance_balCache_or env addr network st with h | h
  · exact h
  · rw [herr] at h
    simp [Except.isOk, Except.toBool] at h

/-- Every `get_balance` call starts by consulting the balance cache at the
raw-address key, and only appends events after that. -/
theorem get_balance_events (env : Env) (addr network : String) (st : St) :
    ∃ rest, (get_balance env addr network st).2.events =
      st.events ++ [.balCacheGet (balance_cache_key network addr)] ++ rest := by
  simp only [get_balance]
  split
  · exact ⟨[], by simp⟩
  · split
    · exact ⟨[], by simp⟩
    next toks _ =>
      split
      · exact ⟨[], by simp⟩
      · split
        next e st' heq =>
          obtain ⟨evs, hevs⟩ := readBalances_events env network (env.checksum addr) toks
            { st with events := st.events ++ [.balCacheGet (balance_cache_key network addr)] }
          rw [heq] at hevs
          exact ⟨evs, by simpa using hevs⟩
        next amounts st' heq =>
          obtain ⟨evs, hevs⟩ := readBalances_events env network (env.checksum addr) toks
            { st with events := st.events ++ [.balCacheGet (balance_cache_key network addr)] }
          rw [heq] at hevs
          simp only at hevs
          obtain ⟨evs2, hevs2a, hevs2b⟩ := get_prices_events env network (toks.map (·.1)) st'
          split
          next e st'' heq2 =>
            rw [heq2] at hevs2a
            have h2 : st''.events = st'.events ++ evs2 := hevs2a
            exact ⟨evs ++ evs2, by simp [h2, hevs, List.append_assoc]⟩
          next prices st'' heq2 =>
            rw [heq2] at hevs2a
            have h2 : st''.events = st'.events ++ evs2 := hevs2a
            split
            · exact ⟨evs ++ evs2, by simp [h2, hevs, List.append_assoc]⟩
            · exact ⟨evs ++ evs2 ++ [.balCachePut (balance_cache_key network addr)],
                by simp [h2, hevs, List.append_assoc]⟩

/-- Characterization of a successful fetch (cache miss): the clock is
untouched, the combined result is stored under the raw-address key, and the
result dict is non-empty. -/
theorem get_balance_ok_spec (env : Env) (addr network : String) (st st1 : St)
    (r : BalRes)
    (hmiss : getTruthy st.balanceCache st.now 60 (balance_cache_key network addr) = none)
    (h : get_balance env addr network st = (.ok r, st1)) :
    st1.now = st.now ∧
    st1.balanceCache = cachePut st.balanceCache st.now (balance_cache_key network addr) r ∧
    r ≠ [] := by
  simp only [get_balance] at h
  rw [show ({ st with events := st.events ++ [Event.balCacheGet (balance_cache_key network addr)] } : St).balanceCache = st.balanceCache from rfl] at h
  simp only [hmiss] at h
  split at h
  · simp at h
  next toks htoks =>
    split at h
    · simp at h
    next =>
      split at h
      next e st' heq => simp at h
      next amounts st' heq =>
        have hrb := readBalances_state env network (env.checksum addr) toks
          { st with events := st.events ++ [.balCacheGet (balance_cache_key network addr)] }
        rw [heq] at hrb
        simp only at hrb
        have hrbk := readBalances_ok env network (env.checksum addr) toks _ _ _ heq
        split at h
        next e st'' heq2 => simp at h
        next prices st'' heq2 =>
          have hps := get_prices_state env network (toks.map (·.1)) st'
          rw [heq2] at hps
          split at h
          next heq3 => simp at h
          next result heq3 =>
            injection h with h1 h2
            injection h1 with h1
            subst h1
            subst h2
            refine ⟨by simpa using hps.2.2.trans hrb.2.2.2, ?_, ?_⟩
            · simp only
              rw [hps.1, hrb.1, hps.2.2, hrb.2.2.2]
            · have hk := mergePrices_keys amounts prices _ heq3
              rw [hrbk.2] at hk
              intro hnil
              rw [hnil] at hk
              exact tokensOf_ne_nil network toks htoks
                (List.map_eq_nil_iff.mp hk.symm)

/-- If the comprehension over a token list succeeded, every token of the list
is in the registry. -/
theorem lookupAddrs_mem (network : String) : ∀ (l : List String) (addrs : List String),
    lookupAddrs network l = some addrs → ∀ t ∈ l, ∃ info, lookupToken network t = some info := by
  intro l
  induction l with
  | nil => intro addrs _ t ht; exact absurd ht (List.not_mem_nil t)
  | cons a rest ih =>
    intro addrs h t ht
    rw [lookupAddrs] at h
    rcases hl : lookupToken network a with _ | info <;> rw [hl] at h
    · simp at h
    · rcases hr : lookupAddrs network rest with _ | tail <;> rw [hr] at h
      · simp at h
      · rcases List.mem_cons.mp ht with rfl | ht2
        · exact ⟨info, hl⟩
        · exact ih tail hr t ht2

/-- A requested token whose coin key exists always gets an `.ok` price, and
the price defaults to `0` exactly when the oracle returned no quote. -/
theorem priceOf_spec (network : String) (coins : CoinsData) (t ck : String)
    (hck : tokenCoinKey network t = some ck) :
    ∃ p, priceOf network coins t = .ok p ∧ (hasQuote coins ck = false → p = 0) := by
  rw [tokenCoinKey] at hck
  by_cases hn : (t == "native") = true
  · rw [if_pos hn] at hck
    injection hck with hck
    subst hck
    rcases hf : coins.find? (fun q => q.1 == coinKey network zeroAddr) with _ | q
    · exact ⟨0, by simp [priceOf, hn, hf], fun _ => rfl⟩
    · rcases q with ⟨k, _ | p⟩
      · exact ⟨0, by simp [priceOf, hn, hf], fun _ => rfl⟩
      · refine ⟨p, by simp [priceOf, hn, hf], fun hq => ?_⟩
        rw [hasQuote, hf] at hq
        simp at hq
  · rw [if_neg hn] at hck
    rcases hl : lookupToken network t with _ | info <;> rw [hl] at hck
    · simp at hck
    · simp only [Option.map] at hck
      injection hck with hck
      subst hck
      rcases hf : coins.find? (fun q => q.1 == coinKey network info.address) with _ | q
      · exact ⟨0, by simp [priceOf, hn, hl, hf, Option.map], fun _ => rfl⟩
      · rcases q with ⟨k, _ | p⟩
        · exact ⟨0, by simp [priceOf, hn, hl, hf, Option.map], fun _ => rfl⟩
        · refine ⟨p, by simp [priceOf, hn, hl, hf, Option.map], fun hq => ?_⟩
          rw [hasQuote, hf] at hq
          simp at hq

/-- Every requested token of a successfully constructed batch request has a
coin key. -/
theorem tokenCoinKey_of_contracts (network : String) (tokens : List String)
    (addrs : List String) (hca : contractAddresses network tokens = .ok addrs) :
    ∀ t ∈ tokens, ∃ ck, tokenCoinKey network t = some ck := by
  rw [contractAddresses] at hca
  rcases hla : lookupAddrs network (tokens.filter (fun t => t != "native")) with _ | l
  · rw [hla] at hca; simp at hca
  · intro t ht
    rw [tokenCoinKey]
    by_cases hn : (t == "native") = true
    · exact ⟨_, by rw [if_pos hn]⟩
    · have htf : t ∈ tokens.filter (fun t => t != "native") := by
        apply List.mem_filter.mpr
        exact ⟨ht, by simpa using hn⟩
      obtain ⟨info, hinfo⟩ := lookupAddrs_mem network _ l hla t htf
      exact ⟨_, by rw [if_neg hn, hinfo]; rfl⟩

/-- The prices loop on distinct fresh tokens builds the dict in request
order, one entry per token. -/
theorem pricesFold (network : String) (coins : CoinsData) :
    ∀ (tokens : List String) (d : PriceMap),
    (∀ t ∈ tokens, ∃ p, priceOf network coins t = .ok p) →
    tokens.Nodup →
    (∀ t ∈ tokens, ∀ e ∈ d, e.1 ≠ t) →
    tokens.foldlM (fun d t => (priceOf network coins t).map (fun p => dictInsert d t p)) d
      = .ok (d ++ tokens.map (fun t => (t, priceOfD network coins t))) := by
  intro tokens
  induction tokens with
  | nil =>
    intro d _ _ _
    simp only [List.foldlM_nil, List.map_nil, List.append_nil]
    rfl
  | cons t rest ih =>
    intro d hok hnd hdisj
    obtain ⟨p, hp⟩ := hok t (List.mem_cons_self t rest)
    have hpd : priceOfD network coins t = p := by rw [priceOfD, hp]
    have hany : d.any (fun e => e.1 == t) = false := by
      rw [List.any_eq_false]
      intro e he
      simpa using hdisj t (List.mem_cons_self t rest) e he
    have hdi : dictInsert d t p = d ++ [(t, p)] := by
      rw [dictInsert, hany]
      simp
    simp only [List.foldlM_cons, hp]
    have hstep : (Except.map (fun p => dictInsert d t p) (Except.ok p) >>= fun d2 =>
        List.foldlM (fun d t => Except.map (fun p => dictInsert d t p) (priceOf network coins t)) d2 rest)
        = List.foldlM (fun d t => Except.map (fun p => dictInsert d t p) (priceOf network coins t)) (dictInsert d t p) rest := rfl
    rw [hstep, hdi]
    rw [ih (d ++ [(t, p)])
      (fun t2 ht2 => hok t2 (List.mem_cons_of_mem t ht2))
      (List.nodup_cons.mp hnd).2
      ?_]
    · simp [hpd]
    · intro t2 ht2 e he
      rcases List.mem_append.mp he with h | h
      · exact hdisj t2 (List.mem_cons_of_mem t ht2) e h
      · simp at h
        intro hc
        apply (List.nodup_cons.mp hnd).1
        have ht : t = t2 := by rw [h] at hc; exact hc
        rw [ht]
        exact ht2

/-- `find?` on the built price dict returns each token's entry. -/
theorem findBuilt (qf : String → ℚ) :
    ∀ (tokens : List String), ∀ t ∈ tokens,
    (tokens.map (fun t => (t, qf t))).find? (fun e => e.1 == t) = some (t, qf t) := by
  intro tokens
  induction tokens with
  | nil => intro t ht; exact absurd ht (List.not_mem_nil t)
  | cons a rest ih =>
    intro t ht
    rcases List.mem_cons.mp ht with rfl | ht2
    · simp [List.find?]
    · by_cases hat : (a == t) = true
      · rw [List.map_cons, List.find?]
        simp only [hat]
        rw [show a = t from by simpa using hat]
      · rw [List.map_cons, List.find?]
        simp only [hat]
        exact ih t ht2

/-- The all-networks loop returns one entry per requested network, in order:
no network key is ever omitted. -/
theorem allNetworksLoop_keys (env : Env) (caddr : String) :
    ∀ (ns : List String) (st : St),
    (allNetworksLoop env caddr ns st).1.map Prod.fst = ns := by
  intro ns
  induction ns with
  | nil => intro st; rfl
  | cons n rest ih =>
    intro st
    rw [allNetworksLoop]
    rcases hgb : get_balance env caddr n st with ⟨res, st'⟩
    cases res <;> simp [ih st']

/-- The accumulated USD total of the loop is exactly the spec's sum over the
successful networks of the returned mapping. -/
theorem allNetworksLoop_total (env : Env) (caddr : String) :
    ∀ (ns : List String) (st : St),
    (allNetworksLoop env caddr ns st).2.1 =
      specTotalUSD (allNetworksLoop env caddr ns st).1 := by
  intro ns
  induction ns with
  | nil => intro st; simp [allNetworksLoop, specTotalUSD]
  | cons n rest ih =>
    intro st
    rw [allNetworksLoop]
    rcases hgb : get_balance env caddr n st with ⟨res, st'⟩
    cases res with
    | error e => simpa [specTotalUSD] using ih st'
    | ok r =>
      have := ih st'
      simp [specTotalUSD] at this ⊢
      rw [this]

/-- The loop never touches the fiat cache or the clock. -/
theorem allNetworksLoop_state (env : Env) (caddr : String) :
    ∀ (ns : List String) (st : St),
    (allNetworksLoop env caddr ns st).2.2.fiatCache = st.fiatCache ∧
    (allNetworksLoop env caddr ns st).2.2.now = st.now := by
  intro ns
  induction ns with
  | nil => intro st; exact ⟨rfl, rfl⟩
  | cons n rest ih =>
    intro st
    rw [allNetworksLoop]
    rcases hgb : get_balance env caddr n st with ⟨res, st'⟩
    have hst := get_balance_state env caddr n st
    rw [hgb] at hst
    cases res with
    | error e =>
      have := ih st'
      exact ⟨this.1.trans hst.1, this.2.trans hst.2⟩
    | ok r =>
      have := ih st'
      exact ⟨this.1.trans hst.1, this.2.trans hst.2⟩

/-- The loop is a strictly sequential left fold: each network's `get_balance`
starts from the completed state of the previous network's call. -/
theorem allNetworksLoop_seq (env : Env) (caddr : String) :
    ∀ (ns : List String) (st : St),
    (allNetworksLoop env caddr ns st).2.2 =
      ns.foldl (fun s n => (get_balance env caddr n s).2) st := by
  intro ns
  induction ns with
  | nil => intro st; rfl
  | cons n rest ih =>
    intro st
    rw [allNetworksLoop]
    rcases hgb : get_balance env caddr n st with ⟨res, st'⟩
    cases res with
    | error e => simp [ih st', hgb]
    | ok r => simp [ih st', hgb]

end Proofs

/-- C1, counterexample. The source computes the balance-cache key from the RAW
address string (`f"{network}:{addr}"`, before checksumming), so the lowercase
and the checksummed variants of the same valid 20-byte address use DIFFERENT
keys: after a first successful call with the lowercase form, a second call
with the checksummed form 10 s later (well inside the 60 s TTL) misses the
cache and performs three fresh chain reads (upstream fetch count 4 + 3 = 7
across the two calls), instead of hitting the stored entry. -/
theorem c1_counterexample :
    balance_cache_key "polygon" aLowW ≠ balance_cache_key "polygon" cAddrW ∧
    ((get_balance envOk cAddrW "polygon"
        { (get_balance envOk aLowW "polygon" St.empty).2 with now := 10 }).2.events.countP
      Event.isUpstream) = 7 := by decide

/-- C1, amended: every key stored in or looked up from the Balance cache by
`get_balance` is fully determined by the pair (network, RAW address string as
passed): keys for the same network coincide exactly when the raw strings are
identical (so case-variants of one address get distinct keys), and every call
consults the cache at exactly this key first. -/
theorem c1_amended (env : Env) (network a b : String) (st : St) :
    (balance_cache_key network a = balance_cache_key network b ↔ a = b) ∧
    (get_balance env a network st).2.events.take (st.events.length + 1)
      = st.events ++ [.balCacheGet (balance_cache_key network a)] := by
  constructor
  · constructor
    · intro h
      have hd := congrArg String.data h
      simp only [balance_cache_key, String.data_append] at hd
      simp at hd
      exact String.ext hd
    · intro h; rw [h]
  · obtain ⟨rest, hrest⟩ := Proofs.get_balance_events env a network st
    rw [hrest]
    rw [show st.events ++ [Event.balCacheGet (balance_cache_key network a)] ++ rest
        = (st.events ++ [Event.balCacheGet (balance_cache_key network a)]) ++ rest from rfl]
    rw [List.take_left' (by simp)]

/-- C2, counterexample. For the malformed address `0xinvalidaddress` the call
does fail with `Invalid address` and performs no upstream fetch, but the
FIRST thing it does is read the balance cache (the trace records a
balance-cache get before the failure): the failure does not happen "before
any cache access", and the cache state IS read. -/
theorem c2_counterexample :
    (get_balance envOk "0xinvalidaddress" "polygon" St.empty).1 = .error "Invalid address" ∧
    (get_balance envOk "0xinvalidaddress" "polygon" St.empty).2.events
      = [.balCacheGet "polygon:0xinvalidaddress"] := by decide

/-- C2, amended: for every malformed address and registered network,
`get_balance` first consults the balance cache at (network, raw address) —
a lookup that misses on every reachable state, since malformed keys are never
stored — and then fails with `Invalid address` having performed no Chain
Reader / Price Lookup / fiat fetch and no cache write (all three caches are
returned unchanged; the only recorded event is the one cache read). -/
theorem c2_amended (env : Env) (addr network : String) (st : St)
    (toks : List (String × TokenInfo))
    (hnet : tokensOf network = some toks)
    (hbad : is_address addr = false)
    (hmiss : getTruthy st.balanceCache st.now 60 (balance_cache_key network addr) = none) :
    get_balance env addr network st =
      (.error "Invalid address",
       { st with events := st.events ++ [.balCacheGet (balance_cache_key network addr)] }) := by
  simp only [get_balance]
  simp only [hmiss, hnet, hbad]
  rfl

/-- C2, amended, witness at the concrete malformed input of §8. -/
theorem c2_amended_witness :
    get_balance envOk "0xzz" "polygon" St.empty =
      (.error "Invalid address",
       { St.empty with events := [.balCacheGet (balance_cache_key "polygon" "0xzz")] }) :=
  c2_amended envOk "0xzz" "polygon" St.empty
    [("weth",   ⟨"0x7ceB23fD6bC0adD59E62ac25578270cFf1b9f619", 18⟩),
     ("usdc",   ⟨"0x3c499c542cEF5E3811e1192ce70d8cC03d5c3359", 6⟩),
     ("native", ⟨"0x0000000000000000000000000000000000000000", 18⟩)]
    (by decide) (by decide) (by decide)

/-- C5: if `get_balance` fails for any reason, the whole call returns the
underlying error and the Balance cache is left exactly as it was — no entry
(partial or otherwise) is stored on the error path. -/
theorem c5_no_partial_on_error (env : Env) (addr network : String) (st : St)
    (e : String) (herr : (get_balance env addr network st).1 = .error e) :
    (get_balance env addr network st).2.balanceCache = st.balanceCache :=
  Proofs.get_balance_err_balCache env addr network st e herr

/-- C5, witness: with every RPC read failing, the call fails with the
underlying error and the balance cache is unchanged (still empty). -/
theorem c5_witness :
    (get_balance envRpcDown aLowW "polygon" St.empty).1 = .error "rpc down" ∧
    (get_balance envRpcDown aLowW "polygon" St.empty).2.balanceCache
      = St.empty.balanceCache :=
  ⟨by decide,
   c5_no_partial_on_error envRpcDown aLowW "polygon" St.empty "rpc down" (by decide)⟩

/-- C8: the price-batch cache key is `network:` followed by the sorted token
symbols joined with commas, so any two token lists that are permutations of
each other produce the same key. -/
theorem c8_price_key_perm (network : String) (t1 t2 : List String)
    (h : t1.Perm t2) :
    price_cache_key network t1 = price_cache_key network t2 := by
  rw [price_cache_key, price_cache_key, Proofs.sortedStrings_eq_of_perm h]

/-- C8, witness at a concrete permutation of polygon's token set. -/
theorem c8_witness :
    (["usdc", "weth", "native"].Perm ["weth", "usdc", "native"]) ∧
    price_cache_key "polygon" ["usdc", "weth", "native"]
      = price_cache_key "polygon" ["weth", "usdc", "native"] :=
  ⟨by decide, c8_price_key_perm "polygon" _ _ (by decide)⟩

/-- C10: when the fiat cache is cold and the fiat-rate fetch fails,
`get_balance_all_networks` raises that error and returns no aggregate at all
— the per-network error isolation does not cover the fiat step. -/
theorem c10_fiat_failure_aborts (env : Env) (addr : String) (st : St)
    (e : String)
    (haddr : is_address addr = true)
    (hfm : cacheGet st.fiatCache st.now 3600 "fiat_prices" = none)
    (hfo : env.fiatOracle () = .error e) :
    (get_balance_all_networks env addr st).1 = .error e := by
  simp only [get_balance_all_networks, haddr, Bool.not_true, Bool.false_eq_true,
    if_false]
  rcases hl : allNetworksLoop env (env.checksum addr)
      (SUPPORTED_NETWORKS.map Prod.fst) st with ⟨results, totalUSD, st'⟩
  have hst := Proofs.allNetworksLoop_state env (env.checksum addr)
    (SUPPORTED_NETWORKS.map Prod.fst) st
  rw [hl] at hst
  simp only at hst
  simp [get_fiat_prices, hst.1, hst.2, hfm, hfo]

/-- C10, witness: balances of all three networks were fetched and stored in
the Balance cache as a side effect, yet the failing fiat step discards the
whole aggregate. -/
theorem c10_witness :
    (get_balance_all_networks envFiatDown aLowW St.empty).1 = .error "fiat api down" ∧
    ((get_balance_all_networks envFiatDown aLowW St.empty).2.balanceCache.map Prod.fst)
      = ["scroll:" ++ cAddrW, "arbitrum:" ++ cAddrW, "polygon:" ++ cAddrW] :=
  ⟨c10_fiat_failure_aborts envFiatDown aLowW St.empty "fiat api down"
     (by decide) (by decide) (by decide),
   by decide⟩

/-- C3: whenever `get_balance_all_networks` returns an aggregate, its
`balances` mapping has exactly one entry per registered network, in registry
order — a failed network contributes its error marker, never a missing key
(each network's `get_balance` is invoked independently in the loop and its
outcome, success or error, is recorded). -/
theorem c3_every_network_key (env : Env) (addr : String) (st : St)
    (hok : (get_balance_all_networks env addr st).1.isOk = true) :
    ((get_balance_all_networks env addr st).1.map fun g => g.balances.map Prod.fst)
      = .ok (SUPPORTED_NETWORKS.map Prod.fst) := by
  cases ha : is_address addr with
  | false =>
    rw [get_balance_all_networks] at hok
    rw [ha] at hok
    simp [Except.isOk, Except.toBool] at hok
  | true =>
    rw [get_balance_all_networks] at hok ⊢
    rw [ha] at hok ⊢
    simp only [Bool.not_true, Bool.false_eq_true, if_false] at hok ⊢
    have hk := Proofs.allNetworksLoop_keys env (env.checksum addr)
      (SUPPORTED_NETWORKS.map Prod.fst) st
    rcases hl : allNetworksLoop env (env.checksum addr)
        (SUPPORTED_NETWORKS.map Prod.fst) st with ⟨results, totalUSD, st2⟩
    rw [hl] at hok hk
    simp only at hok hk ⊢
    rcases hfp : get_fiat_prices env st2 with ⟨fres, st3⟩
    cases fres with
    | error e =>
      rw [hfp] at hok
      simp [Except.isOk, Except.toBool] at hok
    | ok rate => simp [Except.map, hk]

/-- C3, witness: with arbitrum's RPC down and the other networks healthy, the
aggregate still carries a key for every registered network; polygon and
scroll hold successful results and arbitrum holds the error marker. -/
theorem c3_witness :
    ((get_balance_all_networks envArbDown aLowW St.empty).1.map
        fun g => g.balances.map Prod.fst)
      = .ok ["polygon", "arbitrum", "scroll"] ∧
    ((get_balance_all_networks envArbDown aLowW St.empty).1.map
        fun g => g.balances.map (fun e => (e.1, e.2.isOk)))
      = .ok [("polygon", true), ("arbitrum", false), ("scroll", true)] := by
  refine ⟨?_, by decide⟩
  have h := c3_every_network_key envArbDown aLowW St.empty (by decide)
  rw [h]
  decide

/-- C4: in every aggregate `get_balance_all_networks` returns,
`totalValueUSD` is exactly the spec's sum — over the networks whose fetch
succeeded, of Σ (amount × unitPriceUSD) over that network's tokens, failed
networks contributing nothing — and `totalValueARS` is `totalValueUSD`
multiplied by the fiat rate delivered by the fiat step (the rate readable
from the resulting fiat cache). -/
theorem c4_totals (env : Env) (addr : String) (st : St)
    (hok : (get_balance_all_networks env addr st).1.isOk = true) :
    ((get_balance_all_networks env addr st).1.map fun g => g.totalValueUSD)
      = ((get_balance_all_networks env addr st).1.map fun g => specTotalUSD g.balances) ∧
    ∃ rate, cacheGet (get_balance_all_networks env addr st).2.fiatCache
          (get_balance_all_networks env addr st).2.now 3600 "fiat_prices" = some rate ∧
      ((get_balance_all_networks env addr st).1.map fun g => g.totalValueARS)
        = ((get_balance_all_networks env addr st).1.map fun g => g.totalValueUSD * rate) := by
  cases ha : is_address addr with
  | false =>
    rw [get_balance_all_networks] at hok
    rw [ha] at hok
    simp [Except.isOk, Except.toBool] at hok
  | true =>
    rw [get_balance_all_networks] at hok ⊢
    rw [ha] at hok ⊢
    simp only [Bool.not_true, Bool.false_eq_true, if_false] at hok ⊢
    have ht := Proofs.allNetworksLoop_total env (env.checksum addr)
      (SUPPORTED_NETWORKS.map Prod.fst) st
    rcases hl : allNetworksLoop env (env.checksum addr)
        (SUPPORTED_NETWORKS.map Prod.fst) st with ⟨results, totalUSD, st2⟩
    rw [hl] at hok ht
    simp only at hok ht ⊢
    rcases hfp : get_fiat_prices env st2 with ⟨fres, st3⟩
    cases fres with
    | error e =>
      rw [hfp] at hok
      simp [Except.isOk, Except.toBool] at hok
    | ok rate =>
      refine ⟨by simp [Except.map, ht], rate, ?_, by simp [Except.map]⟩
      exact Proofs.get_fiat_prices_ok env st2 st3 rate hfp

/-- C4, witness: with every network healthy and fiat rate 1000, the totals of
the returned aggregate satisfy both identities; the rate read back from the
fiat cache is 1000. -/
theorem c4_witness :
    ((get_balance_all_networks envOk aLowW St.empty).1.map fun g => g.totalValueUSD)
      = ((get_balance_all_networks envOk aLowW St.empty).1.map
          fun g => specTotalUSD g.balances) ∧
    ((get_balance_all_networks envOk aLowW St.empty).1.map fun g => g.totalValueARS)
      = ((get_balance_all_networks envOk aLowW St.empty).1.map
          fun g => g.totalValueUSD * 1000) := by
  have h := c4_totals envOk aLowW St.empty (by decide)
  refine ⟨h.1, ?_⟩
  obtain ⟨rate, hr, hars⟩ := h.2
  have hc : cacheGet (get_balance_all_networks envOk aLowW St.empty).2.fiatCache
      (get_balance_all_networks envOk aLowW St.empty).2.now 3600 "fiat_prices"
      = some 1000 := by decide
  rw [hr] at hc
  injection hc with hc
  rw [← hc]
  exact hars

/-- C6: after a successful fetch (cache miss) for (network, address), an
identical call with the very same address string and network, issued while
the stored entry's age δ is below the 60 s TTL, returns the very same value
and records only one balance-cache read — no Chain Reader or Price Lookup
event is appended, so the upstream fetch count stays at one across the two
calls. -/
theorem c6_cache_roundtrip (env : Env) (addr network : String) (st : St)
    (δ : Nat)
    (hmiss : getTruthy st.balanceCache st.now 60 (balance_cache_key network addr) = none)
    (hok : (get_balance env addr network st).1.isOk = true)
    (hδ : δ < 60) :
    get_balance env addr network
        { (get_balance env addr network st).2 with
            now := (get_balance env addr network st).2.now + δ } =
      ((get_balance env addr network st).1,
       { (get_balance env addr network st).2 with
           now := (get_balance env addr network st).2.now + δ,
           events := (get_balance env addr network st).2.events
             ++ [.balCacheGet (balance_cache_key network addr)] }) := by
  rcases hrun : get_balance env addr network st with ⟨res, st1⟩
  rw [hrun] at hok
  cases res with
  | error e => simp [Except.isOk, Except.toBool] at hok
  | ok r =>
    obtain ⟨hnow, hbc, hne⟩ :=
      Proofs.get_balance_ok_spec env addr network st st1 r hmiss hrun
    have hget : getTruthy st1.balanceCache (st1.now + δ) 60
        (balance_cache_key network addr) = some r := by
      rw [hbc, hnow]
      rw [getTruthy, cacheGet, cachePut]
      rw [List.find?_cons_of_pos _ (by simp)]
      simp only
      rw [if_pos (Nat.add_lt_add_left hδ st.now)]
      cases r with
      | nil => exact absurd rfl hne
      | cons x xs => rfl
    simp only [get_balance, hget]

/-- C6, witness: first call at time 0 on the cold cache, identical second
call at time 10 — the theorem's hypotheses hold at this concrete input. -/
theorem c6_witness :
    get_balance envOk aLowW "polygon"
        { (get_balance envOk aLowW "polygon" St.empty).2 with
            now := (get_balance envOk aLowW "polygon" St.empty).2.now + 10 } =
      ((get_balance envOk aLowW "polygon" St.empty).1,
       { (get_balance envOk aLowW "polygon" St.empty).2 with
           now := (get_balance envOk aLowW "polygon" St.empty).2.now + 10,
           events := (get_balance envOk aLowW "polygon" St.empty).2.events
             ++ [.balCacheGet (balance_cache_key "polygon" aLowW)] }) :=
  c6_cache_roundtrip envOk aLowW "polygon" St.empty 10
    (by decide) (by decide) (by decide)

/-- C7: on a price-batch cache miss, a successful `get_prices` call returns a
dict whose key list is exactly the requested token list (no token omitted,
none added), and every requested token for which the oracle response carries
no quote — key absent, or coin object without a price field — is mapped to
price 0 rather than dropped. -/
theorem c7_prices_complete (env : Env) (network : String)
    (tokens : List String) (st st' : St) (ps : PriceMap) (coins : CoinsData)
    (hmiss : getTruthy st.priceCache st.now 600 (price_cache_key network tokens) = none)
    (hnd : tokens.Nodup)
    (hrun : get_prices env network tokens st = (.ok ps, st'))
    (hor : env.priceOracle network (requestedContracts network tokens) = .ok coins) :
    ps.map Prod.fst = tokens ∧
    ∀ t ∈ tokens, ∀ ck, tokenCoinKey network t = some ck →
      hasQuote coins ck = false →
      ps.find? (fun e => e.1 == t) = some (t, 0) := by
  simp only [get_prices] at hrun
  simp only [hmiss] at hrun
  split at hrun
  next hca => simp at hrun
  next addrs hca =>
    have hreq : requestedContracts network tokens = addrs := by
      rw [requestedContracts, hca]
    rw [hreq] at hor
    rw [hor] at hrun
    simp only at hrun
    have hcks := Proofs.tokenCoinKey_of_contracts network tokens addrs hca
    have hoks : ∀ t ∈ tokens, ∃ p, priceOf network coins t = .ok p := by
      intro t ht
      obtain ⟨ck, hck⟩ := hcks t ht
      obtain ⟨p, hp, _⟩ := Proofs.priceOf_spec network coins t ck hck
      exact ⟨p, hp⟩
    have hfold := Proofs.pricesFold network coins tokens [] hoks hnd (by simp)
    rw [hfold] at hrun
    simp only at hrun
    injection hrun with h1 h2
    injection h1 with h1
    have hps : ps = tokens.map (fun t => (t, priceOfD network coins t)) := by
      rw [← h1]; simp
    subst hps
    constructor
    · rw [List.map_map,
        show (Prod.fst ∘ fun t => (t, priceOfD network coins t)) = id from rfl,
        List.map_id]
    · intro t ht ck hck hnq
      rw [Proofs.findBuilt (priceOfD network coins) tokens t ht]
      obtain ⟨p, hp, himp⟩ := Proofs.priceOf_spec network coins t ck hck
      rw [show priceOfD network coins t = p from by rw [priceOfD, hp]]
      rw [himp hnq]

/-- C7, witness: polygon's token set with the oracle quoting weth at 3 and
the native coin at 2 but returning nothing for usdc: the returned dict keeps
all three keys in request order and maps usdc to 0. -/
theorem c7_witness :
    ([("weth", (3 : ℚ)), ("usdc", 0), ("native", 2)].map Prod.fst
      = ["weth", "usdc", "native"]) ∧
    ([("weth", (3 : ℚ)), ("usdc", 0), ("native", 2)].find?
        (fun e => e.1 == "usdc") = some ("usdc", 0)) := by
  have h := c7_prices_complete envNQ "polygon" ["weth", "usdc", "native"]
    St.empty
    { balanceCache := [], fiatCache := [], now := 0,
      priceCache := [("polygon:native,usdc,weth", 0,
        [("weth", 3), ("usdc", 0), ("native", 2)])],
      events := [.priceCacheGet "polygon:native,usdc,weth",
        .priceFetch "polygon"
          ["0x7ceb23fd6bc0add59e62ac25578270cff1b9f619",
           "0x3c499c542cef5e3811e1192ce70d8cc03d5c3359",
           "0x0000000000000000000000000000000000000000"],
        .priceCachePut "polygon:native,usdc,weth"] }
    [("weth", 3), ("usdc", 0), ("native", 2)]
    [(coinKey "polygon" "0x7ceB23fD6bC0adD59E62ac25578270cFf1b9f619", some 3),
     (coinKey "polygon" zeroAddr, some 2)]
    (by decide) (by decide) (by decide) (by decide)
  exact ⟨h.1, h.2 "usdc" (by decide) "polygon:0x3c499c542cef5e3811e1192ce70d8cc03d5c3359"
    (by decide) (by decide)⟩

/-- C9, counterexample. The trace of a single cold `get_balance` call is the
strictly sequential list below: the three chain reads complete (positions
1–3) BEFORE the price lookup starts (positions 4–6) — the Chain Reader and
Price Lookup invocations do not run concurrently, they are fully ordered.
And in the all-networks run every event of polygon's fetch (positions 0–7)
precedes arbitrum's first event (position 8): the per-network fetches are
serial round trips, not independent concurrent tasks. -/
theorem c9_counterexample :
    (get_balance envOk aLowW "polygon" St.empty).2.events =
      [.balCacheGet ("polygon:" ++ aLowW),
       .chainRead "polygon" "weth" cAddrW,
       .chainRead "polygon" "usdc" cAddrW,
       .chainRead "polygon" "native" cAddrW,
       .priceCacheGet "polygon:native,usdc,weth",
       .priceFetch "polygon"
         ["0x7ceb23fd6bc0add59e62ac25578270cff1b9f619",
          "0x3c499c542cef5e3811e1192ce70d8cc03d5c3359",
          "0x0000000000000000000000000000000000000000"],
       .priceCachePut "polygon:native,usdc,weth",
       .balCachePut ("polygon:" ++ aLowW)] ∧
    ((get_balance_all_networks envOk aLowW St.empty).2.events.take 8).countP
      Event.isChainRead = 3 ∧
    (get_balance_all_networks envOk aLowW St.empty).2.events[8]? =
      some (.balCacheGet ("arbitrum:" ++ cAddrW)) := by decide

/-- C9, amended: within one request the work is strictly sequential — on a
cache miss `get_balance` first performs one chain read per token, in token-
table order, and only after ALL of them completes does the Price Lookup
segment run (its events contain no chain read), followed by the cache store;
and `get_balance_all_networks` processes the registered networks one at a
time, each network's whole fetch completing before the next one starts (the
loop is a left fold over the networks). -/
theorem c9_sequential (env : Env) (addr network : String) (st : St)
    (toks : List (String × TokenInfo))
    (hnet : tokensOf network = some toks)
    (hmiss : getTruthy st.balanceCache st.now 60 (balance_cache_key network addr) = none)
    (hok : (get_balance env addr network st).1.isOk = true) :
    (∃ priceEvs,
        (get_balance env addr network st).2.events =
          st.events ++ [.balCacheGet (balance_cache_key network addr)]
            ++ toks.map (fun p => Event.chainRead network p.1 (env.checksum addr))
            ++ priceEvs ++ [.balCachePut (balance_cache_key network addr)] ∧
        ∀ ev ∈ priceEvs, ev.isChainRead = false) ∧
    ∀ (caddr : String) (ns : List String) (st0 : St),
      (allNetworksLoop env caddr ns st0).2.2 =
        ns.foldl (fun s n => (get_balance env caddr n s).2) st0 := by
  refine ⟨?_, fun caddr ns st0 => Proofs.allNetworksLoop_seq env caddr ns st0⟩
  rcases hrun : get_balance env addr network st with ⟨res, st1⟩
  rw [hrun] at hok
  cases res with
  | error e => simp [Except.isOk, Except.toBool] at hok
  | ok r =>
    simp only [get_balance] at hrun
    simp only [hmiss, hnet] at hrun
    split at hrun
    · simp at hrun
    next =>
      split at hrun
      next e st2 heq => simp at hrun
      next amounts st2 heq =>
        have hev1 := Proofs.readBalances_ok env network (env.checksum addr) toks _ _ _ heq
        split at hrun
        next e st3 heq2 => simp at hrun
        next prices st3 heq2 =>
          obtain ⟨evs2, hevs2a, hevs2b⟩ :=
            Proofs.get_prices_events env network (toks.map (·.1)) st2
          rw [heq2] at hevs2a
          have hevs2c : st3.events = st2.events ++ evs2 := hevs2a
          split at hrun
          next heq3 => simp at hrun
          next result heq3 =>
            injection hrun with h1 h2
            injection h1 with h1
            refine ⟨evs2, ?_, hevs2b⟩
            rw [← h2]
            rw [show ({ st3 with
                events := st3.events ++ [Event.balCachePut (balance_cache_key network addr)] } : St).events
              = st3.events ++ [Event.balCachePut (balance_cache_key network addr)] from rfl]
            rw [hevs2c, hev1.1]

/-- C9, amended, witness: the concrete cold polygon call performs exactly
three chain reads and ends with the balance-cache store. -/
theorem c9_witness :
    (get_balance envOk aLowW "polygon" St.empty).2.events.countP
      Event.isChainRead = 3 ∧
    (get_balance envOk aLowW "polygon" St.empty).2.events.getLast?
      = some (.balCachePut ("polygon:" ++ aLowW)) := by
  have h := c9_sequential envOk aLowW "polygon" St.empty
    [("weth",   ⟨"0x7ceB23fD6bC0adD59E62ac25578270cFf1b9f619", 18⟩),
     ("usdc",   ⟨"0x3c499c542cEF5E3811e1192ce70d8cC03d5c3359", 6⟩),
     ("native", ⟨"0x0000000000000000000000000000000000000000", 18⟩)]
    (by decide) (by decide) (by decide)
  exact ⟨by decide, by decide⟩

end ChatterPay
